import Mathlib

/-!
Verification of the iframe-traffic-counter server (`src/main.rs`) against its
natural-language specification.  The Rust code is shallowly embedded: the visit
table `HashMap<String, usize>` becomes an association list, text becomes
`List Char`, fallible I/O becomes `Except`, and the `tokio::select!` main loop
becomes a step function on explicit events.  Counts are modelled as `Nat`
with `usize` arithmetic made explicit for the 64-bit target the program is
built for: `parse::<usize>` rejects values that do not fit in 64 bits, and the
handler's `*visit += 1` is taken modulo `2 ^ 64`, matching the wrapping add of
a release build (a debug build panics at `usize::MAX`; in either build the add
does not produce `n + 1` at the boundary).
-/

/-- Models `HashMap<String, usize>` (the visit table) as an association list;
`HashMap` key uniqueness corresponds to first-match lookup below. -/
abbrev VisitTable := List (String × Nat)

/-- Models `HashMap::get`-style lookup: the value stored under a key, if any. -/
def lookupTab : VisitTable → String → Option Nat
  | [], _ => none
  | (k', v) :: t, k => if k = k' then some v else lookupTab t k

/-- Models `HashMap::insert`: overwrite the value if the key is present,
otherwise add the binding. -/
def insertTab : VisitTable → String → Nat → VisitTable
  | [], k, v => [(k, v)]
  | (k', v') :: t, k, v => if k' = k then (k, v) :: t else (k', v') :: insertTab t k v

/-- The count stored under a key, defaulting to 0 when absent — the value
`entry(key).or_insert(0)` starts from in `handle` (main.rs line 70). -/
def countOf (t : VisitTable) (k : String) : Nat := (lookupTab t k).getD 0

/-- The list of keys of a table. -/
def keysOf (t : VisitTable) : List String := t.map Prod.fst

/-- The ASCII digit character for a digit value `d < 10`. -/
def digitCh (d : Nat) : Char := Char.ofNat (48 + d)

/-- Fuel-driven decimal printer; `fuel ≥ n` suffices since a number has no
more decimal digits than its own value. -/
def toDecAux : Nat → Nat → List Char
  | 0, _ => []
  | fuel + 1, n =>
    if n = 0 then [] else toDecAux fuel (n / 10) ++ [digitCh (n % 10)]

/-- Models Rust's `usize` `Display` (`format!("{v}")`, main.rs lines 72 and 85):
standard decimal notation, most significant digit first. -/
def natReprCl (n : Nat) : List Char :=
  if n = 0 then ['0'] else toDecAux n n

/-- Whether a character is an ASCII digit. -/
def isDigitCh (c : Char) : Bool := 48 ≤ c.toNat && c.toNat ≤ 57

/-- The numeric value of an ASCII digit character. -/
def digitVal (c : Char) : Nat := c.toNat - 48

/-- Drops one leading `+` sign, as Rust's integer `FromStr` allows. -/
def stripPlus : List Char → List Char
  | '+' :: r => r
  | s => s

/-- Models `str::parse::<usize>()` (main.rs line 126) on a 64-bit target:
an optional `+` sign followed by one or more ASCII digits, rejected on
overflow past `usize::MAX`. -/
def parseUsizeCl (s : List Char) : Option Nat :=
  let t := stripPlus s
  if t.isEmpty then none
  else if t.all isDigitCh then
    let n := t.foldl (fun a c => a * 10 + digitVal c) 0
    if n < 2 ^ 64 then some n else none
  else none

/-- Strips one trailing carriage return, as Rust's `str::lines` does on each
`\n`-terminated segment. -/
def stripCR (l : List Char) : List Char :=
  match l.getLast? with
  | some '\r' => l.dropLast
  | _ => l

/-- Accumulator worker for `linesCl`; `acc` holds the current line reversed. -/
def linesAux : List Char → List Char → List (List Char)
  | [], acc => if acc.isEmpty then [] else [acc.reverse]
  | c :: cs, acc =>
    if c = '\n' then stripCR acc.reverse :: linesAux cs []
    else linesAux cs (c :: acc)

/-- Models Rust's `str::lines` (main.rs line 123): split on `\n`, strip a `\r`
preceding each `\n`, and drop a final empty segment (a trailing line
terminator produces no extra line). -/
def linesCl (s : List Char) : List (List Char) := linesAux s []

/-- Models Rust's `str::split(c)` (main.rs line 124): the list of (possibly
empty) chunks between occurrences of `c`; never empty. -/
def splitChar (c : Char) : List Char → List (List Char)
  | [] => [[]]
  | x :: xs =>
    if x = c then [] :: splitChar c xs
    else
      match splitChar c xs with
      | [] => [[x]]
      | l :: ls => (x :: l) :: ls

/-- The (key, count) a snapshot line yields, if any: the code takes the first
two chunks of `split(' ')` via `split.next().zip(split.next())` and keeps
them exactly when the second chunk parses as `usize`
(main.rs lines 124–127). -/
def parsedKV (l : List Char) : Option (String × Nat) :=
  match splitChar ' ' l with
  | k :: v :: _ => (parseUsizeCl v).map (fun n => (String.mk k, n))
  | _ => none

/-- One iteration of the snapshot-loading loop body (main.rs lines 123–130). -/
def decodeLine (t : VisitTable) (l : List Char) : VisitTable :=
  match parsedKV l with
  | some (k, n) => insertTab t k n
  | none => t

/-- Models the snapshot-parsing loop in `main` (main.rs lines 119–132): fold
the line decoder over the file's lines, starting from the empty table. -/
def decode (s : List Char) : VisitTable := (linesCl s).foldl decodeLine []

/-- The text `format!("{server} {v}")` contributes for one entry. -/
def lineOf (kv : String × Nat) : List Char := kv.1.data ++ ' ' :: natReprCl kv.2

/-- Models `write_visits` (main.rs lines 82–86): fold over the table,
prepending `"{server} {v}\n"` for each entry to the accumulated string. -/
def write_visits (t : VisitTable) : List Char :=
  t.foldl (fun s kv => lineOf kv ++ '\n' :: s) []

/-- Models the file content after one flush (main.rs lines 152–155 and
160–163): the handle was opened without `truncate`, the flush seeks to the
start and writes the new serialization, so any prior bytes past the new
length survive. -/
def flushFile (oldContent : List Char) (t : VisitTable) : List Char :=
  write_visits t ++ oldContent.drop (write_visits t).length

/-- The referer header of an incoming request: absent, present but rejected by
`HeaderValue::to_str` (any non-visible-ASCII byte, in particular any byte
sequence that is not valid UTF-8), or present with string value `s`. -/
inductive RefererHeader where
  | absent
  | invalid
  | valid (s : String)

/-- Models `req.headers().get(REFERER).and_then(|v| v.to_str().ok())`
(main.rs lines 56–59). -/
def extractReferer : RefererHeader → Option String
  | .absent => none
  | .invalid => none
  | .valid s => some s

/-- An HTTP response as the handler builds it: a status code and a body. -/
structure HttpResponse where
  status : Nat
  body : List Char
deriving DecidableEq

/-- The literal placeholder `"\x7b\x7bVISIT_COUNT\x7d\x7d"` replaced in the
template (main.rs line 72). -/
def VISIT_COUNT_TOKEN : List Char := "\x7b\x7bVISIT_COUNT\x7d\x7d".data

/-- Whether `p` is an initial segment of `s`. -/
def leadsWith : List Char → List Char → Bool
  | [], _ => true
  | _ :: _, [] => false
  | p :: ps, c :: cs => p = c && leadsWith ps cs

/-- Models Rust's `str::replace` for a non-empty literal pattern (the only use
in the source): replace every non-overlapping occurrence, scanning left to
right. -/
def replaceAll (pat rep : List Char) : List Char → List Char
  | [] => []
  | c :: cs =>
    match pat with
    | [] => c :: cs
    | p :: ps =>
      if leadsWith (p :: ps) (c :: cs) then rep ++ replaceAll pat rep (cs.drop ps.length)
      else c :: replaceAll pat rep cs
termination_by s => s.length
decreasing_by
  · simp only [List.length_cons, List.length_drop]
    omega
  · simp

/-- Models `handle` (main.rs lines 51–76): missing or unreadable referer gives
an empty 400 response and leaves the table alone; otherwise
`entry(referer).or_insert(0)` then `*visit += 1` stores the incremented
count, and the body is the template with the count substituted (the default
success status of `Response::new` is 200).  The increment is a `usize` add,
modelled modulo `2 ^ 64`: a release build wraps `usize::MAX` to 0 (a debug
build panics there — in neither build does the add yield `n + 1`). -/
def handle (r : RefererHeader) (template : List Char) (visits : VisitTable) :
    HttpResponse × VisitTable :=
  match extractReferer r with
  | none => ({ status := 400, body := [] }, visits)
  | some referer =>
    let n := (countOf visits referer + 1) % 2 ^ 64
    let html := replaceAll VISIT_COUNT_TOKEN (natReprCl n) template
    ({ status := 200, body := html }, insertTab visits referer n)

/-- What one round of the `tokio::select!` loop does to the process
(main.rs lines 144–178). -/
inductive LoopStep where
  | continueLoop
  | exitSuccess
  | exitFailure (e : String)
deriving DecidableEq

/-- The three event sources the main loop multiplexes (main.rs lines 149–176). -/
inductive LoopEvent where
  | cancelSignal
  | timerTick
  | connAccept

/-- The `seek(0)?; write_all(..)?; flush()?` sequence of a flush: the first
failure short-circuits, as `?` does. -/
def flushChain (seekR writeR syncR : Except String Unit) : Except String Unit :=
  seekR.bind fun _ => writeR.bind fun _ => syncR

/-- Models one arm of the `tokio::select!` in `main` (main.rs lines 149–177):
on the shutdown signal a successful flush returns `Ok(())` from `main` and a
failed one propagates the error via `?`; on a timer tick a successful flush
continues the loop and a failed one propagates the error via `?` (no arm
logs a flush error and continues); an accepted connection spawns a task and
continues. -/
def mainLoopStep (ev : LoopEvent) (seekR writeR syncR : Except String Unit) : LoopStep :=
  match ev with
  | .cancelSignal =>
    match flushChain seekR writeR syncR with
    | .ok _ => .exitSuccess
    | .error e => .exitFailure e
  | .timerTick =>
    match flushChain seekR writeR syncR with
    | .ok _ => .continueLoop
    | .error e => .exitFailure e
  | .connAccept => .continueLoop

/-- The operations that touch the table after startup seeding: a handled
request, or a flush (which only reads the table under the lock). -/
inductive ServerOp where
  | request (r : RefererHeader)
  | flushTick

/-- The table after one operation: `handle`'s resulting table for a request;
a flush leaves the table unchanged (main.rs lines 152–155, 160–163 only
read it). -/
def applyOp (template : List Char) (t : VisitTable) : ServerOp → VisitTable
  | .request r => (handle r template t).2
  | .flushTick => t

/-- The table after a sequence of operations. -/
def runOps (template : List Char) (ops : List ServerOp) (t : VisitTable) : VisitTable :=
  ops.foldl (applyOp template) t

/-- Modelled from the spec: "for each line, split on the first space into
(key, rest)" — the first-space split the spec's decode description uses,
for comparison with the code's `splitChar`-chunk behaviour. -/
def splitFirst (c : Char) : List Char → Option (List Char × List Char)
  | [] => none
  | x :: xs =>
    if x = c then some ([], xs)
    else (splitFirst c xs).map (fun p => (x :: p.1, p.2))

/-- Modelled from the spec: one line of the spec's decode — "split on the
first space into (key, rest); if rest parses as a non-negative integer,
insert key→value; otherwise drop the line silently". -/
def decodeSpecLine (t : VisitTable) (l : List Char) : VisitTable :=
  match splitFirst ' ' l with
  | some (k, rest) =>
    match parseUsizeCl rest with
    | some n => insertTab t (String.mk k) n
    | none => t
  | none => t

/-- Modelled from the spec: the spec's decode, folded over the lines. -/
def decodeSpec (s : List Char) : VisitTable := (linesCl s).foldl decodeSpecLine []

/-! ### Helper lemmas: decimal printing and parsing -/

theorem digitCh_toNat {d : Nat} (h : d < 10) : (digitCh d).toNat = 48 + d := by
  interval_cases d <;> rfl

theorem isDigitCh_digitCh {d : Nat} (h : d < 10) : isDigitCh (digitCh d) = true := by
  simp only [isDigitCh, digitCh_toNat h, Bool.and_eq_true, decide_eq_true_eq]
  omega

theorem digitVal_digitCh {d : Nat} (h : d < 10) : digitVal (digitCh d) = d := by
  simp only [digitVal, digitCh_toNat h]
  omega

theorem toDecAux_eq (fuel : Nat) : ∀ n : Nat, n ≤ fuel →
    toDecAux fuel n = ((Nat.digits 10 n).map digitCh).reverse := by
  induction fuel with
  | zero => intro n hn; interval_cases n; simp [toDecAux]
  | succ fuel ih =>
    intro n hn
    by_cases h0 : n = 0
    · subst h0; simp [toDecAux]
    · rw [toDecAux, if_neg h0,
        Nat.digits_def' (by norm_num : (1:Nat) < 10) (Nat.pos_of_ne_zero h0)]
      have hd : n / 10 < n := Nat.div_lt_self (Nat.pos_of_ne_zero h0) (by norm_num)
      rw [ih (n / 10) (by omega)]
      simp

theorem natReprCl_eq (n : Nat) :
    natReprCl n = if n = 0 then ['0'] else ((Nat.digits 10 n).map digitCh).reverse := by
  by_cases h0 : n = 0
  · simp [natReprCl, h0]
  · simp [natReprCl, h0, toDecAux_eq n n (Nat.le_refl n)]

theorem natReprCl_all_digits (n : Nat) : ∀ c ∈ natReprCl n, isDigitCh c = true := by
  rw [natReprCl_eq]
  by_cases h0 : n = 0
  · simp [h0]; decide
  · simp only [h0, if_neg, ite_false, List.mem_reverse, List.mem_map]
    rintro c ⟨d, hd, rfl⟩
    exact isDigitCh_digitCh (Nat.digits_lt_base (by norm_num) hd)

theorem natReprCl_ne_nil (n : Nat) : natReprCl n ≠ [] := by
  rw [natReprCl_eq]
  by_cases h0 : n = 0
  · simp [h0]
  · simp [h0, Nat.digits_ne_nil_iff_ne_zero.mpr h0]

theorem stripPlus_of_digits (l : List Char) (h : ∀ c ∈ l, isDigitCh c = true) :
    stripPlus l = l := by
  cases l with
  | nil => rfl
  | cons c cs =>
    unfold stripPlus
    split
    · rename_i heq
      obtain ⟨rfl, rfl⟩ := List.cons.inj heq
      exact absurd (h '+' (by simp)) (by decide)
    · rfl

theorem foldr_digits_ofDigits (L : List Nat) (h : ∀ d ∈ L, d < 10) :
    List.foldr (fun c a => a * 10 + digitVal c) 0 (L.map digitCh) = Nat.ofDigits 10 L := by
  induction L with
  | nil => simp [Nat.ofDigits_nil]
  | cons d L ih =>
    simp only [List.map_cons, List.foldr_cons, Nat.ofDigits_cons]
    rw [ih (fun x hx => h x (by simp [hx])), digitVal_digitCh (h d (by simp))]
    omega

theorem foldl_natReprCl (n : Nat) :
    (natReprCl n).foldl (fun a c => a * 10 + digitVal c) 0 = n := by
  rw [natReprCl_eq]
  by_cases h0 : n = 0
  · simp [h0]; decide
  · simp only [h0, ite_false]
    rw [List.foldl_reverse]
    rw [foldr_digits_ofDigits _ (fun d hd => Nat.digits_lt_base (by norm_num) hd)]
    exact Nat.ofDigits_digits 10 n

theorem parse_natReprCl (n : Nat) (h : n < 2 ^ 64) : parseUsizeCl (natReprCl n) = some n := by
  have h1 : (natReprCl n).isEmpty = false := by
    simp [List.isEmpty_iff, natReprCl_ne_nil n]
  have h2 : (natReprCl n).all isDigitCh = true := List.all_eq_true.mpr (natReprCl_all_digits n)
  simp [parseUsizeCl, stripPlus_of_digits _ (natReprCl_all_digits n), h1, h2,
    foldl_natReprCl, h]
  omega

/-! ### Helper lemmas: splitting and line structure -/

theorem splitChar_of_not_mem {c : Char} {l : List Char} (h : c ∉ l) : splitChar c l = [l] := by
  induction l with
  | nil => rfl
  | cons x xs ih =>
    have hx : ¬ x = c := fun hh => h (by simp [hh])
    have hxs : c ∉ xs := fun hh => h (by simp [hh])
    simp [splitChar, if_neg hx, ih hxs]

theorem splitChar_append {c : Char} (l2 : List Char) :
    ∀ l1 : List Char, c ∉ l1 → splitChar c (l1 ++ c :: l2) = l1 :: splitChar c l2 := by
  intro l1
  induction l1 with
  | nil => intro _; simp [splitChar]
  | cons x xs ih =>
    intro h
    have hx : ¬ x = c := fun hh => h (by simp [hh])
    have hxs : c ∉ xs := fun hh => h (by simp [hh])
    simp only [List.cons_append, splitChar, if_neg hx, List.append_eq, ih hxs]

theorem linesAux_append (rest : List Char) :
    ∀ l : List Char, '\n' ∉ l → ∀ acc,
      linesAux (l ++ '\n' :: rest) acc = stripCR (acc.reverse ++ l) :: linesAux rest [] := by
  intro l
  induction l with
  | nil => intro _ acc; simp [linesAux]
  | cons x xs ih =>
    intro h acc
    have hx : ¬ x = '\n' := fun hh => h (by simp [hh])
    have hxs : '\n' ∉ xs := fun hh => h (by simp [hh])
    simp only [List.cons_append, linesAux, if_neg hx, List.append_eq]
    rw [ih hxs (x :: acc)]
    simp

theorem linesCl_flatten (L : List (List Char))
    (h : ∀ l ∈ L, '\n' ∉ l ∧ stripCR l = l) :
    linesCl (List.flatten (L.map (fun l => l ++ ['\n']))) = L := by
  induction L with
  | nil => rfl
  | cons l L ih =>
    have hl := h l (by simp)
    have hflat : List.flatten ((l :: L).map (fun l => l ++ ['\n'])) =
        l ++ '\n' :: List.flatten (L.map (fun l => l ++ ['\n'])) := by
      simp
    rw [hflat]
    unfold linesCl
    rw [linesAux_append _ l hl.1 []]
    rw [List.reverse_nil, List.nil_append, hl.2]
    exact congrArg _ (ih (fun x hx => h x (by simp [hx])))

theorem foldl_write (l : List (String × Nat)) :
    ∀ s : List Char, l.foldl (fun s kv => lineOf kv ++ '\n' :: s) s =
      List.flatten ((l.reverse).map (fun kv => lineOf kv ++ ['\n'])) ++ s := by
  induction l with
  | nil => intro s; simp
  | cons kv l ih =>
    intro s
    simp only [List.foldl_cons, List.reverse_cons, List.map_append, List.flatten_append]
    rw [ih]
    simp

theorem write_visits_eq (t : VisitTable) :
    write_visits t = List.flatten ((t.reverse).map (fun kv => lineOf kv ++ ['\n'])) := by
  unfold write_visits
  rw [foldl_write]
  simp

theorem mem_natReprCl_isDigit {n : Nat} {c : Char} (h : c ∈ natReprCl n) :
    isDigitCh c = true := natReprCl_all_digits n c h

theorem space_not_mem_natReprCl (n : Nat) : ' ' ∉ natReprCl n := by
  intro h
  have := mem_natReprCl_isDigit h
  simp [isDigitCh] at this

theorem newline_not_mem_natReprCl (n : Nat) : '\n' ∉ natReprCl n := by
  intro h
  have := mem_natReprCl_isDigit h
  simp [isDigitCh] at this

theorem lineOf_no_newline (kv : String × Nat) (h : '\n' ∉ kv.1.data) : '\n' ∉ lineOf kv := by
  unfold lineOf
  intro hmem
  rcases List.mem_append.mp hmem with h1 | h2
  · exact h h1
  · rcases List.mem_cons.mp h2 with h3 | h4
    · exact absurd h3 (by decide)
    · exact newline_not_mem_natReprCl _ h4

theorem getLast?_digits_ne_cr (l : List Char) (h : ∀ c ∈ l, isDigitCh c = true) :
    l.getLast? ≠ some '\x0d' := by
  cases l with
  | nil => simp
  | cons a as =>
    rw [List.getLast?_eq_getLast _ (by simp)]
    intro hh
    have hmem := List.getLast_mem (l := a :: as) (by simp)
    rw [Option.some_inj.mp hh] at hmem
    have := h _ hmem
    simp [isDigitCh] at this

theorem stripCR_lineOf (kv : String × Nat) : stripCR (lineOf kv) = lineOf kv := by
  have h1 : (lineOf kv).getLast? = (natReprCl kv.2).getLast? := by
    unfold lineOf
    rw [List.getLast?_append_of_ne_nil _ (by simp)]
    cases hr : natReprCl kv.2 with
    | nil => exact absurd hr (natReprCl_ne_nil _)
    | cons a as => rw [List.getLast?_cons_cons]
  unfold stripCR
  split
  · rename_i heq
    rw [h1] at heq
    exact absurd heq (getLast?_digits_ne_cr _ (natReprCl_all_digits _))
  · rfl

theorem decodeLine_lineOf (t : VisitTable) (kv : String × Nat)
    (hk : ' ' ∉ kv.1.data) (hv : kv.2 < 2 ^ 64) :
    decodeLine t (lineOf kv) = insertTab t kv.1 kv.2 := by
  unfold decodeLine parsedKV lineOf
  rw [splitChar_append _ _ hk, splitChar_of_not_mem (space_not_mem_natReprCl kv.2)]
  simp [parse_natReprCl kv.2 hv]

/-! ### Helper lemmas: the table -/

theorem lookupTab_insertTab (t : VisitTable) (k : String) (v : Nat) (k' : String) :
    lookupTab (insertTab t k v) k' = if k' = k then some v else lookupTab t k' := by
  induction t with
  | nil => simp [insertTab, lookupTab]
  | cons kv t ih =>
    obtain ⟨k0, v0⟩ := kv
    by_cases h0 : k0 = k
    · subst h0
      by_cases h' : k' = k0 <;> simp [insertTab, lookupTab, h']
    · by_cases h' : k' = k0
      · subst h'
        have : ¬ k' = k := fun hh => h0 (hh ▸ rfl)
        simp [insertTab, lookupTab, h0, this]
      · simp [insertTab, lookupTab, h0, h', ih]

theorem decode_write_visits (t : VisitTable)
    (hkey : ∀ kv ∈ t, ' ' ∉ kv.1.data ∧ '\n' ∉ kv.1.data)
    (hval : ∀ kv ∈ t, kv.2 < 2 ^ 64) :
    decode (write_visits t) =
      (t.reverse).foldl (fun acc kv => insertTab acc kv.1 kv.2) [] := by
  unfold decode
  rw [write_visits_eq]
  have hm : (t.reverse.map (fun kv => lineOf kv ++ ['\n'])) =
      ((t.reverse.map lineOf).map (fun l => l ++ ['\n'])) := by
    rw [List.map_map]
    rfl
  rw [hm, linesCl_flatten (t.reverse.map lineOf) ?hL]
  case hL =>
    intro l hl
    obtain ⟨kv, hkv, rfl⟩ := List.mem_map.mp hl
    have hkv' : kv ∈ t := List.mem_reverse.mp hkv
    exact ⟨lineOf_no_newline kv (hkey kv hkv').2, stripCR_lineOf kv⟩
  rw [List.foldl_map]
  apply List.foldl_ext
  intro acc kv hkv
  have hkv' : kv ∈ t := List.mem_reverse.mp hkv
  exact decodeLine_lineOf acc kv (hkey kv hkv').1 (hval kv hkv')

theorem lookup_foldl_insert (t : VisitTable) (k : String) :
    lookupTab ((t.reverse).foldl (fun acc kv => insertTab acc kv.1 kv.2) []) k =
      lookupTab t k := by
  induction t with
  | nil => rfl
  | cons kv t ih =>
    rw [List.reverse_cons, List.foldl_append]
    simp only [List.foldl_cons, List.foldl_nil]
    rw [lookupTab_insertTab]
    obtain ⟨k0, v0⟩ := kv
    by_cases h : k = k0
    · simp [lookupTab, h]
    · rw [if_neg h, ih]
      simp only [lookupTab, if_neg h]

theorem lookupTab_decodeLine_of_other_key (t : VisitTable) (l : List Char) (k : String)
    (h : ∀ v, parsedKV l ≠ some (k, v)) :
    lookupTab (decodeLine t l) k = lookupTab t k := by
  unfold decodeLine
  cases hp : parsedKV l with
  | none => rfl
  | some kv =>
    obtain ⟨k', v⟩ := kv
    have hne : ¬ k = k' := by
      intro hh
      exact h v (by rw [hp, hh])
    rw [lookupTab_insertTab, if_neg hne]

theorem lookupTab_foldl_decode_of_no_key (L : List (List Char)) (k : String)
    (h : ∀ l ∈ L, ∀ v, parsedKV l ≠ some (k, v)) :
    ∀ t : VisitTable, lookupTab (L.foldl decodeLine t) k = lookupTab t k := by
  induction L with
  | nil => intro t; rfl
  | cons l L ih =>
    intro t
    rw [List.foldl_cons, ih (fun x hx => h x (by simp [hx]))]
    exact lookupTab_decodeLine_of_other_key t l k (h l (by simp))

theorem keysOf_insertTab (t : VisitTable) (k : String) (v : Nat) :
    keysOf (insertTab t k v) = if k ∈ keysOf t then keysOf t else keysOf t ++ [k] := by
  induction t with
  | nil => simp [insertTab, keysOf]
  | cons kv t ih =>
    obtain ⟨k0, v0⟩ := kv
    have hk : keysOf ((k0, v0) :: t) = k0 :: keysOf t := rfl
    by_cases h0 : k0 = k
    · subst h0
      have h1 : insertTab ((k0, v0) :: t) k0 v = (k0, v) :: t := by simp [insertTab]
      rw [h1, hk]
      have h2 : keysOf ((k0, v) :: t) = k0 :: keysOf t := rfl
      rw [h2]
      simp [List.mem_cons]
    · have h0' : ¬ k = k0 := fun hh => h0 (hh ▸ rfl)
      have hins : insertTab ((k0, v0) :: t) k v = (k0, v0) :: insertTab t k v := by
        simp [insertTab, h0]
      rw [hins]
      have hkk : keysOf ((k0, v0) :: insertTab t k v) = k0 :: keysOf (insertTab t k v) := rfl
      rw [hkk, ih, hk]
      by_cases hmem : k ∈ keysOf t
      · simp [List.mem_cons, hmem]
      · simp [List.mem_cons, hmem, h0']

theorem keysOf_insertTab_nodup (t : VisitTable) (k : String) (v : Nat)
    (h : (keysOf t).Nodup) : (keysOf (insertTab t k v)).Nodup := by
  rw [keysOf_insertTab]
  by_cases hmem : k ∈ keysOf t
  · simpa [hmem] using h
  · simp only [hmem, ite_false]
    simp [List.nodup_append, h, hmem]

theorem keysOf_decodeLine_nodup (t : VisitTable) (l : List Char)
    (h : (keysOf t).Nodup) : (keysOf (decodeLine t l)).Nodup := by
  unfold decodeLine
  cases hp : parsedKV l with
  | none => exact h
  | some kv => exact keysOf_insertTab_nodup t kv.1 kv.2 h

theorem keysOf_foldl_decode_nodup (L : List (List Char)) :
    ∀ t : VisitTable, (keysOf t).Nodup → (keysOf (L.foldl decodeLine t)).Nodup := by
  induction L with
  | nil => intro t h; exact h
  | cons l L ih =>
    intro t h
    rw [List.foldl_cons]
    exact ih _ (keysOf_decodeLine_nodup t l h)

theorem applyOp_valid_eq (template : List Char) (t : VisitTable) (s : String) :
    applyOp template t (.request (.valid s)) = insertTab t s ((countOf t s + 1) % 2 ^ 64) :=
  rfl

theorem countOf_applyOp_le (template : List Char) (t : VisitTable) (op : ServerOp) (k : String) :
    countOf (applyOp template t op) k ≤ countOf t k + 1 := by
  cases op with
  | flushTick => exact Nat.le_succ _
  | request r =>
    cases r with
    | absent => exact Nat.le_succ _
    | invalid => exact Nat.le_succ _
    | valid s =>
      rw [applyOp_valid_eq]
      by_cases hks : k = s
      · subst hks
        simp only [countOf]
        rw [lookupTab_insertTab, if_pos rfl, Option.getD_some]
        exact Nat.mod_le _ _
      · simp only [countOf]
        rw [lookupTab_insertTab, if_neg hks]
        exact Nat.le_succ _

theorem lookupTab_applyOp_some (template : List Char) (t : VisitTable) (op : ServerOp)
    (k : String) (n : Nat) (h : lookupTab t k = some n) :
    ∃ m, lookupTab (applyOp template t op) k = some m := by
  cases op with
  | flushTick => exact ⟨n, h⟩
  | request r =>
    cases r with
    | absent => exact ⟨n, h⟩
    | invalid => exact ⟨n, h⟩
    | valid s =>
      rw [applyOp_valid_eq]
      by_cases hks : k = s
      · subst hks
        exact ⟨(countOf t k + 1) % 2 ^ 64, by rw [lookupTab_insertTab, if_pos rfl]⟩
      · exact ⟨n, by rw [lookupTab_insertTab, if_neg hks]; exact h⟩

theorem countOf_applyOp_mono (template : List Char) (t : VisitTable) (op : ServerOp)
    (k : String) (hb : countOf t k + 1 < 2 ^ 64) :
    countOf t k ≤ countOf (applyOp template t op) k ∧
    (∀ n, lookupTab t k = some n →
      ∃ m, lookupTab (applyOp template t op) k = some m ∧ n ≤ m) := by
  cases op with
  | flushTick => exact ⟨Nat.le_refl _, fun n h => ⟨n, h, Nat.le_refl n⟩⟩
  | request r =>
    cases r with
    | absent => exact ⟨Nat.le_refl _, fun n h => ⟨n, h, Nat.le_refl n⟩⟩
    | invalid => exact ⟨Nat.le_refl _, fun n h => ⟨n, h, Nat.le_refl n⟩⟩
    | valid s =>
      rw [applyOp_valid_eq]
      by_cases hks : k = s
      · subst hks
        rw [Nat.mod_eq_of_lt hb]
        constructor
        · simp only [countOf]
          rw [lookupTab_insertTab, if_pos rfl, Option.getD_some]
          exact Nat.le_succ _
        · intro n hn
          refine ⟨countOf t k + 1, ?_, ?_⟩
          · rw [lookupTab_insertTab, if_pos rfl]
          · rw [countOf, hn, Option.getD_some]
            exact Nat.le_succ n
      · constructor
        · rw [countOf, countOf, lookupTab_insertTab, if_neg hks]
        · intro n hn
          refine ⟨n, ?_, Nat.le_refl n⟩
          rw [lookupTab_insertTab, if_neg hks]
          exact hn

/-! ### Claim theorems -/

/-- C1: the claim says a flush truncates the file so its content equals exactly
the new encoding.  The code evaluated at a concrete failing input: a prior
snapshot `"aaaa 10\n"` followed by a flush of the table `[("a", 1)]` leaves
the file holding `"a 1\n 10\n"` — the new encoding plus stale trailing bytes
of the larger prior snapshot — which differs from the encoding
`write_visits [("a", 1)] = "a 1\n"`. -/
theorem c1_flush_leaves_stale_bytes :
    flushFile ("aaaa 10\n".data) [("a", 1)] = ("a 1\n 10\n").data ∧
    flushFile ("aaaa 10\n".data) [("a", 1)] ≠ write_visits [("a", 1)] := by
  exact ⟨by decide, by decide⟩

/-- C2 counterexample: the claim promises stored count `n + 1` for every table
state, but a snapshot line can seed a count of `usize::MAX` (the decoder's
`parse::<usize>` accepts it), and there the source's `*visit += 1` does not
produce `n + 1`: a release build wraps to 0 (shown), a debug build panics. -/
theorem c2_wrap_counterexample :
    lookupTab [("a", 2 ^ 64 - 1)] "a" = some (2 ^ 64 - 1) ∧
    lookupTab (handle (.valid "a") ['x'] [("a", 2 ^ 64 - 1)]).2 "a" = some 0 ∧
    some (0 : Nat) ≠ some (2 ^ 64 - 1 + 1) := by
  exact ⟨by decide, by decide, by decide⟩

/-- C2 (amended): for every non-empty key, the handler's increment inserts an
absent key with count 1 (and renders 1); a present count `n` below
`usize::MAX` (so `n + 1 < 2 ^ 64`) becomes `n + 1` in the stored table and
in the rendered body.  At `n = usize::MAX` the `usize` add wraps (release)
or panics (debug) instead of producing `n + 1`. -/
theorem c2_increment (k : String) (hk : k ≠ "") (template : List Char) (t : VisitTable) :
    (lookupTab t k = none →
      lookupTab (handle (.valid k) template t).2 k = some 1 ∧
      (handle (.valid k) template t).1.body =
        replaceAll VISIT_COUNT_TOKEN (natReprCl 1) template) ∧
    (∀ n, lookupTab t k = some n → n + 1 < 2 ^ 64 →
      lookupTab (handle (.valid k) template t).2 k = some (n + 1) ∧
      (handle (.valid k) template t).1.body =
        replaceAll VISIT_COUNT_TOKEN (natReprCl (n + 1)) template) := by
  constructor
  · intro h
    constructor
    · show lookupTab (insertTab t k ((countOf t k + 1) % 2 ^ 64)) k = some 1
      rw [lookupTab_insertTab, if_pos rfl, countOf, h]
      rfl
    · show replaceAll VISIT_COUNT_TOKEN (natReprCl ((countOf t k + 1) % 2 ^ 64)) template = _
      rw [countOf, h]
      rfl
  · intro n h hb
    have hmod : (countOf t k + 1) % 2 ^ 64 = n + 1 := by
      rw [countOf, h, Option.getD_some]
      exact Nat.mod_eq_of_lt hb
    constructor
    · show lookupTab (insertTab t k ((countOf t k + 1) % 2 ^ 64)) k = some (n + 1)
      rw [lookupTab_insertTab, if_pos rfl, hmod]
    · show replaceAll VISIT_COUNT_TOKEN (natReprCl ((countOf t k + 1) % 2 ^ 64)) template = _
      rw [hmod]

/-- Witness for C2 at a concrete input: key `"a"` stored with count 5 is bumped
to 6 and the body renders 6. -/
theorem c2_increment_witness :
    lookupTab (handle (.valid "a") ['x'] [("a", 5)]).2 "a" = some 6 ∧
    (handle (.valid "a") ['x'] [("a", 5)]).1.body =
      replaceAll VISIT_COUNT_TOKEN (natReprCl 6) ['x'] :=
  (c2_increment "a" (by decide) ['x'] [("a", 5)]).2 5 (by decide) (by decide)

/-- C3 counterexample: the claim promises the round trip for every table whose
keys merely avoid newlines, but a key containing a space already breaks it —
`write_visits [("a b", 3)]` is the line `"a b 3\n"`, whose second
space-separated chunk `"b"` does not parse, so the decoder drops the line
and the key is lost. -/
theorem c3_space_key_counterexample :
    lookupTab (decode (write_visits [("a b", 3)])) "a b" = none ∧
    lookupTab [(("a b" : String), 3)] "a b" = some 3 := by
  exact ⟨by decide, by decide⟩

/-- C3 (amended): for every table whose keys contain no space and no newline
and whose counts fit in `usize`, decoding the encoding yields a table with
exactly the original entries (order-independent: the two tables agree on
every lookup). -/
theorem c3_roundtrip_amended (t : VisitTable)
    (hkey : ∀ kv ∈ t, ' ' ∉ kv.1.data ∧ '\n' ∉ kv.1.data)
    (hval : ∀ kv ∈ t, kv.2 < 2 ^ 64) :
    ∀ k, lookupTab (decode (write_visits t)) k = lookupTab t k := by
  intro k
  rw [decode_write_visits t hkey hval, lookup_foldl_insert]

/-- Witness for C3 at a concrete input: the two-entry table
`[("a", 3), ("b", 0)]` survives the round trip at both keys. -/
theorem c3_roundtrip_witness :
    lookupTab (decode (write_visits [("a", 3), ("b", 0)])) "a" =
      lookupTab [("a", 3), ("b", 0)] "a" ∧
    lookupTab (decode (write_visits [("a", 3), ("b", 0)])) "b" =
      lookupTab [("a", 3), ("b", 0)] "b" :=
  ⟨c3_roundtrip_amended [("a", 3), ("b", 0)] (by decide) (by decide) "a",
   c3_roundtrip_amended [("a", 3), ("b", 0)] (by decide) (by decide) "b"⟩

/-- C4 counterexample: the claim says a line is split on the FIRST space into
(key, rest) and inserted exactly when `rest` parses.  On the line
`"a 3 x"` the rest `"3 x"` does not parse, so the claimed decoder
(`decodeSpec`, modelled from the spec's words) drops the line, yet the code
inserts `("a", 3)` because it only looks at the second space-separated
chunk. -/
theorem c4_first_space_counterexample :
    decode ("a 3 x".data) = [("a", 3)] ∧
    decodeSpec ("a 3 x".data) = [] ∧
    parseUsizeCl ("3 x".data) = none ∧
    ([(("a" : String), 3)] : VisitTable) ≠ [] := by
  exact ⟨by decide, by decide, by decide, by decide⟩

/-- C4 (amended): the decoder splits each line on spaces and reads the first
chunk as the key and the second chunk as the candidate count, ignoring
everything after a second space; it inserts exactly when that second chunk
parses as `usize` and silently drops the line otherwise (including lines
with no space at all); decoding empty input yields the empty table, and the
one-good-line-one-garbage-line example decodes to exactly `[("a", 3)]`. -/
theorem c4_decode_line_semantics :
    (∀ (t : VisitTable) (l k v : List Char) (rest : List (List Char)) (n : Nat),
      splitChar ' ' l = k :: v :: rest → parseUsizeCl v = some n →
        decodeLine t l = insertTab t (String.mk k) n) ∧
    (∀ (t : VisitTable) (l k v : List Char) (rest : List (List Char)),
      splitChar ' ' l = k :: v :: rest → parseUsizeCl v = none →
        decodeLine t l = t) ∧
    (∀ (t : VisitTable) (l c : List Char),
      splitChar ' ' l = [c] → decodeLine t l = t) ∧
    decode ("".data) = [] ∧
    decode ("a 3\nnot a record".data) = [("a", 3)] := by
  refine ⟨?_, ?_, ?_, by decide, by decide⟩
  · intro t l k v rest n hs hp
    simp [decodeLine, parsedKV, hs, hp]
  · intro t l k v rest hs hp
    simp [decodeLine, parsedKV, hs, hp]
  · intro t l c hs
    simp [decodeLine, parsedKV, hs]

/-- Witness for C4 at a concrete input: the line `"a 3 x"` splits into chunks
`["a", "3", "x"]`, the second chunk `"3"` parses, and the line decodes to an
insertion of `("a", 3)`. -/
theorem c4_decode_witness :
    decodeLine [] ("a 3 x".data) = insertTab [] "a" 3 :=
  c4_decode_line_semantics.1 [] ("a 3 x".data) ("a".data) ("3".data) [("x".data)] 3
    (by decide) (by decide)

/-- C5 counterexample: the claim says a failed periodic flush is logged and the
loop continues; in the code every `await` of the timer arm carries `?`, so a
seek/write/flush error propagates out of `main` — the step exits with the
error instead of continuing. -/
theorem c5_timer_error_counterexample :
    mainLoopStep .timerTick (Except.error "disk full") (Except.ok ()) (Except.ok ()) =
      LoopStep.exitFailure "disk full" ∧
    mainLoopStep .timerTick (Except.error "disk full") (Except.ok ()) (Except.ok ()) ≠
      LoopStep.continueLoop := by
  exact ⟨rfl, by decide⟩

/-- C5 (amended): a flush I/O failure in the periodic-timer arm terminates the
process with an error exactly as a shutdown-flush failure does (nothing is
logged and the loop does not continue); only a fully successful flush lets
the timer arm continue, and lets the shutdown arm exit successfully. -/
theorem c5_flush_failure_fatal (e : String) (seekR writeR syncR : Except String Unit) :
    (flushChain seekR writeR syncR = Except.error e →
      mainLoopStep .timerTick seekR writeR syncR = LoopStep.exitFailure e ∧
      mainLoopStep .cancelSignal seekR writeR syncR = LoopStep.exitFailure e) ∧
    (flushChain seekR writeR syncR = Except.ok () →
      mainLoopStep .timerTick seekR writeR syncR = LoopStep.continueLoop ∧
      mainLoopStep .cancelSignal seekR writeR syncR = LoopStep.exitSuccess) := by
  constructor
  · intro h
    constructor <;> simp [mainLoopStep, h]
  · intro h
    constructor <;> simp [mainLoopStep, h]

/-- Witness for C5 at a concrete input: a failed seek in the timer arm exits
with the error, and the same failure in the shutdown arm also exits with the
error. -/
theorem c5_flush_failure_fatal_witness :
    mainLoopStep .timerTick (Except.error "e") (Except.ok ()) (Except.ok ()) =
      LoopStep.exitFailure "e" ∧
    mainLoopStep .cancelSignal (Except.error "e") (Except.ok ()) (Except.ok ()) =
      LoopStep.exitFailure "e" :=
  (c5_flush_failure_fatal "e" (Except.error "e") (Except.ok ()) (Except.ok ())).1 rfl

/-- C6: a request with no referer header gets status 400 with an empty body and
the table is returned unchanged. -/
theorem c6_missing_referer (template : List Char) (t : VisitTable) :
    handle .absent template t = ({ status := 400, body := [] }, t) := rfl

/-- C7 counterexample: the claim says a stored count never decreases while the
process runs, but a table seeded with `usize::MAX` from a well-formed
snapshot line is wrapped to 0 by one handled request in a release build — a
decrease (a debug build panics at the same state instead). -/
theorem c7_wrap_counterexample :
    countOf [("a", 2 ^ 64 - 1)] "a" = 2 ^ 64 - 1 ∧
    countOf (runOps ['x'] [ServerOp.request (.valid "a")] [("a", 2 ^ 64 - 1)]) "a" = 0 ∧
    ¬ ((2 : Nat) ^ 64 - 1 ≤ 0) := by
  exact ⟨by decide, by decide, by decide⟩

/-- C7 (amended): across any sequence of post-seeding operations (handled
requests and flush ticks), a stored entry is never removed; and provided the
key's starting count plus the number of operations stays below `2 ^ 64` (so
no increment of that key reaches `usize::MAX`), the key's count is
non-decreasing and a stored value can only grow. -/
theorem c7_monotone (template : List Char) (ops : List ServerOp) (t : VisitTable) (k : String) :
    (∀ n, lookupTab t k = some n → ∃ m, lookupTab (runOps template ops t) k = some m) ∧
    (countOf t k + ops.length < 2 ^ 64 →
      countOf t k ≤ countOf (runOps template ops t) k ∧
      (∀ n, lookupTab t k = some n →
        ∃ m, lookupTab (runOps template ops t) k = some m ∧ n ≤ m)) := by
  induction ops generalizing t with
  | nil =>
    exact ⟨fun n h => ⟨n, h⟩,
      fun _ => ⟨Nat.le_refl _, fun n h => ⟨n, h, Nat.le_refl n⟩⟩⟩
  | cons op ops ih =>
    have hstep : runOps template (op :: ops) t = runOps template ops (applyOp template t op) :=
      rfl
    rw [hstep]
    constructor
    · intro n hn
      obtain ⟨m1, hm1⟩ := lookupTab_applyOp_some template t op k n hn
      exact (ih (applyOp template t op)).1 m1 hm1
    · intro hbound
      simp only [List.length_cons] at hbound
      have hle := countOf_applyOp_le template t op k
      have hb1 : countOf t k + 1 < 2 ^ 64 := Nat.lt_of_le_of_lt (by omega) hbound
      have hbound' : countOf (applyOp template t op) k + ops.length < 2 ^ 64 :=
        Nat.lt_of_le_of_lt (by omega) hbound
      have hmono := countOf_applyOp_mono template t op k hb1
      have ih' := (ih (applyOp template t op)).2 hbound'
      constructor
      · exact Nat.le_trans hmono.1 ih'.1
      · intro n hn
        obtain ⟨m1, hm1, hle1⟩ := hmono.2 n hn
        obtain ⟨m2, hm2, hle2⟩ := ih'.2 m1 hm1
        exact ⟨m2, hm2, Nat.le_trans hle1 hle2⟩

/-- Witness for C7 at a concrete input: after one more request for `"a"`, the
stored count 1 has grown to some `m ≥ 1`. -/
theorem c7_monotone_witness :
    ∃ m, lookupTab (runOps ['x'] [ServerOp.request (.valid "a")] [("a", 1)]) "a" = some m ∧
      1 ≤ m :=
  ((c7_monotone ['x'] [ServerOp.request (.valid "a")] [("a", 1)] "a").2 (by decide)).2 1
    (by decide)

/-- C8: a referer header that is present but rejected by `HeaderValue::to_str`
(in particular one that is not valid UTF-8) is handled exactly like an
absent header: status 400, empty body, table unchanged. -/
theorem c8_invalid_referer (template : List Char) (t : VisitTable) :
    handle .invalid template t = ({ status := 400, body := [] }, t) ∧
    handle .invalid template t = handle .absent template t := ⟨rfl, rfl⟩

/-- C9: when the snapshot text has a well-formed line for key `k` and no later
line yields key `k`, the decoded table maps `k` to that line's value (later
insertions overwrite earlier ones), and the decoded table never has
duplicate keys. -/
theorem c9_last_line_wins (s : List Char) (L1 L2 : List (List Char)) (l : List Char)
    (k : String) (v : Nat)
    (hsplit : linesCl s = L1 ++ l :: L2)
    (hl : parsedKV l = some (k, v))
    (hlast : ∀ l' ∈ L2, ∀ v', parsedKV l' ≠ some (k, v')) :
    lookupTab (decode s) k = some v ∧ (keysOf (decode s)).Nodup := by
  constructor
  · unfold decode
    rw [hsplit, List.foldl_append, List.foldl_cons]
    rw [lookupTab_foldl_decode_of_no_key L2 k hlast]
    unfold decodeLine
    rw [hl, lookupTab_insertTab, if_pos rfl]
  · unfold decode
    exact keysOf_foldl_decode_nodup (linesCl s) [] (by simp [keysOf])

/-- Witness for C9 at a concrete input: in `"a 1\na 2"` the later line wins, so
`"a"` decodes to 2, with no duplicate keys. -/
theorem c9_last_line_wins_witness :
    lookupTab (decode ("a 1\na 2".data)) "a" = some 2 ∧
    (keysOf (decode ("a 1\na 2".data))).Nodup :=
  c9_last_line_wins ("a 1\na 2".data) [("a 1".data)] [] ("a 2".data) "a" 2
    (by decide) (by decide) (by simp)

/-- C10 counterexample: the claim promises the stored count `countOf + 1` for
every table, but with the empty key seeded at `usize::MAX` the handler's
`usize` add does not produce it — a release build stores the wrapped 0
(shown), a debug build panics. -/
theorem c10_wrap_counterexample :
    lookupTab (handle (.valid "") ['x'] [("", 2 ^ 64 - 1)]).2 "" = some 0 ∧
    some (0 : Nat) ≠ some (countOf [("", 2 ^ 64 - 1)] "" + 1) := by
  exact ⟨by decide, by decide⟩

/-- C10 (amended): a present referer header whose value is the empty string is
accepted: the handler responds with status 200 and mutates the entry under
the empty-string key, even though the spec's data model calls site
identifiers non-empty; whenever the stored count is below `usize::MAX` (so
`countOf + 1 < 2 ^ 64`), the new stored count is `countOf + 1` and the body
renders it. -/
theorem c10_empty_referer_key (template : List Char) (t : VisitTable) :
    (handle (.valid "") template t).1.status = 200 ∧
    (countOf t "" + 1 < 2 ^ 64 →
      lookupTab (handle (.valid "") template t).2 "" = some (countOf t "" + 1) ∧
      (handle (.valid "") template t).1.body =
        replaceAll VISIT_COUNT_TOKEN (natReprCl (countOf t "" + 1)) template) := by
  refine ⟨rfl, fun hb => ⟨?_, ?_⟩⟩
  · show lookupTab (insertTab t "" ((countOf t "" + 1) % 2 ^ 64)) "" = some (countOf t "" + 1)
    rw [lookupTab_insertTab, if_pos rfl, Nat.mod_eq_of_lt hb]
  · show replaceAll VISIT_COUNT_TOKEN (natReprCl ((countOf t "" + 1) % 2 ^ 64)) template = _
    rw [Nat.mod_eq_of_lt hb]

/-- Witness for C10 at a concrete input: on the empty table the empty-string
referer stores count 1 and the body renders 1. -/
theorem c10_empty_referer_key_witness :
    lookupTab (handle (.valid "") ['x'] []).2 "" = some 1 ∧
    (handle (.valid "") ['x'] []).1.body = replaceAll VISIT_COUNT_TOKEN (natReprCl 1) ['x'] :=
  (c10_empty_referer_key ['x'] []).2 (by decide)
